import Mathlib

/-!
Verification development for the smart-energy-system repository.

The embedding translates the state-synchronization and automation core:
the wire/logical relay codec, the battery threshold guard, the telemetry
merge, the relay-state ingest, the decision/toggle write paths
(`updateAllSwitches` / `handleSwitchChange`), the optimization entry point
(`handleOptimization`), the banded allocation rules of the two
`intelligentSwitchControlPrompt` variants, and the two ESP32 firmware
stream callbacks that drive the GPIO pins.
-/

namespace SmartEnergy

/-! ## WireCodec

The remote store keeps the relay wire state for Normally Closed relays:
stored `false` means ON, stored `true` means OFF.  The decode site is
`dashboard.tsx` line 172 / part_001 line 189 (`const newUiState = !s.state`),
a single boolean negation. -/

/-- Decode a stored wire state into the application-facing logical state,
from `const newUiState = !s.state` in the relay-state ingest. -/
def toLogical (wireState : Bool) : Bool := !wireState

/-- Modelled from the spec: the encode direction
`toWire(logicalOn: bool) -> bool = !logicalOn` lives in the
`updateSwitchState` server action (`app/actions`), which is not among the
provided sources; its callers document it as a single inversion
("The action will invert it for the DB", part_001 line 211). -/
def toWire (logicalOn : Bool) : Bool := !logicalOn

/-! ## ThresholdGuard

`dashboard.tsx` lines 126–157: on each telemetry observation the new
battery level is compared with the previous one held in the
`previousBatteryLevel` ref (`number | null`, initially `null`); automation
fires exactly when
`prevBatteryLevel !== null && newBatteryLevel < 40 && prevBatteryLevel >= 40`,
and the ref then advances to the new level. -/

/-- One guard observation: does automation fire for new level `b` given the
previous level `prev` (`none` models the initial `null` ref)? -/
def guardFire (prev : Option ℤ) (b : ℤ) : Bool :=
  match prev with
  | some p => decide (40 ≤ p) && decide (b < 40)
  | none => false

/-- Run the guard over a sequence of observed battery levels, returning the
fire flag of every observation in order. -/
def guardRun (prev : Option ℤ) : List ℤ → List Bool
  | [] => []
  | b :: rest => guardFire prev b :: guardRun (some b) rest

/-! ## TelemetryIngest

Two merge variants exist in the sources.  part_001 lines 160–168 resolves
each field against the previous held snapshot (`latestData.x ?? prev.x`)
and recomputes power only when the *raw* record carries truthy voltage and
current (`(latestData.voltage && latestData.current) ? v*c : prev.power`;
JavaScript treats `0` and a missing field as falsy).  dashboard.tsx lines
137–146 instead falls back to the `INITIAL_ENERGY_DATA` constants. -/

structure EnergyData where
  voltage : ℚ
  current : ℚ
  batteryLevel : ℚ
  power : ℚ
  temperature : ℚ
  humidity : ℚ
  deriving DecidableEq, Repr

/-- A raw telemetry record as pushed by the device; every field may be
absent. -/
structure RawEnergy where
  voltage : Option ℚ
  current : Option ℚ
  batteryLevel : Option ℚ
  temperature : Option ℚ
  humidity : Option ℚ
  deriving DecidableEq, Repr

/-- Truthiness of a raw numeric field in JavaScript: present and nonzero. -/
def truthy (x : Option ℚ) : Bool :=
  match x with
  | some v => decide (v ≠ 0)
  | none => false

/-- The telemetry merge of part_001 lines 160–168: carry each missing field
forward from the previous snapshot; recompute power from the raw record's
voltage and current exactly when both are truthy there, else carry the
previous power. -/
def mergeSnapshot (prev : EnergyData) (raw : RawEnergy) : EnergyData where
  voltage := raw.voltage.getD prev.voltage
  current := raw.current.getD prev.current
  batteryLevel := raw.batteryLevel.getD prev.batteryLevel
  power :=
    if truthy raw.voltage && truthy raw.current then
      (raw.voltage.getD 0) * (raw.current.getD 0)
    else prev.power
  temperature := raw.temperature.getD prev.temperature
  humidity := raw.humidity.getD prev.humidity

/-- The telemetry merge of dashboard.tsx lines 137–146: missing fields fall
back to the fixed `INITIAL_ENERGY_DATA` constants (`init`), not to the
previously held snapshot. -/
def mergeSnapshotInit (init : EnergyData) (raw : RawEnergy) : EnergyData where
  voltage := raw.voltage.getD init.voltage
  current := raw.current.getD init.current
  batteryLevel := raw.batteryLevel.getD init.batteryLevel
  power :=
    if truthy raw.voltage && truthy raw.current then
      (raw.voltage.getD 0) * (raw.current.getD 0)
    else init.power
  temperature := raw.temperature.getD init.temperature
  humidity := raw.humidity.getD init.humidity

/-! ## RelayStateIngest

dashboard.tsx lines 159–193: for every `(id, s)` entry of the remote
relay-state map, decode `newUiState = !s.state`, locate the first held
entry with that id (`findIndex`); if found and the state differs, replace
it in place (taking the raw name and new state); if absent, push
`{id, name: s.name || "Switch {id}", state}` at the end; if anything
changed, sort by ascending id and store, else keep the previous list
object.  (The string key is modelled as an already-parsed integer id; the
`isNaN`/`hasOwnProperty` guard that skips malformed entries is the reason
only well-formed entries appear here.) -/

structure SwitchSt where
  id : ℤ
  name : Option String
  state : Bool
  deriving DecidableEq, Repr

structure RawSwitch where
  name : Option String
  state : Bool
  deriving DecidableEq, Repr

/-- The default display name `"Switch {id}"` used when a pushed raw entry
has no (or an empty, hence falsy) name. -/
def defaultName (k : ℤ) : String := "Switch " ++ toString k

/-- JavaScript `s.name || defaultName`: an absent or empty name falls back
to the default. -/
def pushName (k : ℤ) (n : Option String) : String :=
  match n with
  | none => defaultName k
  | some s => if s = "" then defaultName k else s

/-- First-match update of the held list for one raw entry, the recursive
rendering of `findIndex` + in-place replace / `push`: returns the new list
and whether this entry changed anything. -/
def updateFirst (k : ℤ) (r : RawSwitch) : List SwitchSt → List SwitchSt × Bool
  | [] => ([⟨k, some (pushName k r.name), !r.state⟩], true)
  | sw :: rest =>
    if sw.id = k then
      if sw.state ≠ (!r.state) then
        (⟨sw.id, r.name, !r.state⟩ :: rest, true)
      else (sw :: rest, false)
    else
      let p := updateFirst k r rest
      (sw :: p.1, p.2)

/-- The `forEach` loop over the raw map, threading the held list and the
`hasChanged` flag. -/
def ingestLoop : List SwitchSt → Bool → List (ℤ × RawSwitch) →
    List SwitchSt × Bool
  | l, ch, [] => (l, ch)
  | l, ch, (k, r) :: rest =>
    let p := updateFirst k r l
    ingestLoop p.1 (ch || p.2) rest

instance : DecidableRel (fun a b : SwitchSt => a.id ≤ b.id) :=
  fun a b => Int.decLe a.id b.id

instance : IsTotal SwitchSt (fun a b => a.id ≤ b.id) :=
  ⟨fun a b => Int.le_total a.id b.id⟩

instance : IsTrans SwitchSt (fun a b => a.id ≤ b.id) :=
  ⟨fun _ _ _ hab hbc => le_trans hab hbc⟩

/-- The `updatedSwitches.sort((a, b) => a.id - b.id)` step (comparison
sort by ascending id; tie order is immaterial since ids are unique). -/
def sortById (l : List SwitchSt) : List SwitchSt :=
  List.insertionSort (fun a b => a.id ≤ b.id) l

/-- One full processing of a remote relay-state map: run the loop starting
with `hasChanged = false`; if anything changed, store the re-sorted list,
else return the previous list object unchanged. -/
def processSwitches (held : List SwitchSt) (raw : List (ℤ × RawSwitch)) :
    List SwitchSt × Bool :=
  let p := ingestLoop held false raw
  if p.2 then (sortById p.1, true) else (held, false)

/-- Locate the first held entry with a given id (`findIndex`-style
lookup). -/
def lookup (k : ℤ) (l : List SwitchSt) : Option SwitchSt :=
  l.find? (fun sw => decide (sw.id = k))

/-! ## ReconciliationWriter

`updateAllSwitches` (dashboard.tsx lines 54–65): decode the decision's db
states into UI states (`state: !newSwitchDbStates[i]`), set them
optimistically, then issue one `updateSwitchState` call per switch without
awaiting or inspecting its result ("no need to await, fire and forget",
part_001 line 65).  `handleSwitchChange` (lines 195–211): optimistic
single toggle, awaited write, revert to `!checked` on failure. -/

/-- The optimistic local application of a decision:
`switches.map((s, i) => ({...s, state: !newSwitchDbStates[i]}))` (a JS
out-of-range index reads `undefined`, whose negation is `true`). -/
def applyDbStates (switches : List SwitchSt) (newSwitchDbStates : List Bool) :
    List SwitchSt :=
  switches.mapIdx (fun i s => { s with state := !(newSwitchDbStates.getD i false) })

/-- The decision write path with the per-relay remote write outcomes made
explicit: the code never consults them (fire and forget), so the local
result is the optimistic application regardless of `writeOutcomes`. -/
def updateAllSwitchesModel (switches : List SwitchSt)
    (newSwitchDbStates : List Bool) (writeOutcomes : List Bool) :
    List SwitchSt :=
  have _ := writeOutcomes
  applyDbStates switches newSwitchDbStates

/-- The manual single-toggle path `handleSwitchChange`: no-op when the id
is unknown; otherwise optimistic set to `checked`, and on a failed write
the entry is set back to `!checked`. -/
def handleSwitchChangeModel (switches : List SwitchSt) (id : ℤ)
    (checked : Bool) (writeOk : Bool) : List SwitchSt :=
  match switches.find? (fun s => decide (s.id = id)) with
  | none => switches
  | some _ =>
    let optimistic :=
      switches.map (fun s => if s.id = id then { s with state := checked } else s)
    if writeOk then optimistic
    else optimistic.map
      (fun s => if s.id = id then { s with state := !checked } else s)

/-! ## Optimization entry point

`handleOptimization` (dashboard.tsx lines 67–117): if no prediction is
held, a prediction fetch is attempted first; the latest prediction is then
consulted — if still absent, an error toast is shown and the policy is not
run (no switch writes); otherwise the policy runs and its decision, when
successful, is applied through `updateAllSwitches`. -/

structure Forecast where
  predictedConsumption : ℚ
  userUsagePatterns : String
  deriving DecidableEq, Repr

/-- `handleOptimization` with its collaborators made explicit:
`prediction` is the held forecast, `fetched` the result of the
`handlePrediction` attempt made when none is held, `aiResult` the policy
call's outcome.  Returns (policy invoked?, resulting held switches). -/
def handleOptimizationModel (prediction fetched : Option Forecast)
    (aiResult : Option (List Bool × String)) (switches : List SwitchSt) :
    Bool × List SwitchSt :=
  match (match prediction with | some p => some p | none => fetched) with
  | none => (false, switches)
  | some _ =>
    match aiResult with
    | some (dbStates, _) => (true, applyDbStates switches dbStates)
    | none => (true, switches)

/-! ## AllocationPolicy

The policy is the rule hierarchy of `intelligentSwitchControlPrompt`; the
free-text ranking among equally eligible relays is left open, so the rules
are embedded as a predicate on outputs (any output obeying every hard
constraint of the applicable band rule is a possible decision).  Two
variants exist: `intelligent-switch-control.ts` (V1) and part_002 (V2);
their band tables differ.  Rule 7 of both demands the reasoning state
which battery rule influenced the decision, embedded as a substring
constraint on the band's name. -/

structure PolicyInput where
  voltage : ℚ
  current : ℚ
  batteryLevel : ℚ
  powerConsumption : ℚ
  predictedUsage : ℚ
  userPreferences : String
  userUsagePatterns : String
  deriving DecidableEq, Repr

structure PolicyOutput where
  switch1State : Bool
  switch2State : Bool
  switch3State : Bool
  switch4State : Bool
  switch5State : Bool
  reasoning : String
  deriving DecidableEq, Repr

/-- The five wire-state outputs in order. -/
def outStates (o : PolicyOutput) : List Bool :=
  [o.switch1State, o.switch2State, o.switch3State, o.switch4State,
    o.switch5State]

/-- Number of relays assigned `logicalOn = true`: an output of `false`
turns a Normally Closed relay ON. -/
def countOn (o : PolicyOutput) : ℕ := (outStates o).count false

/-- All relays OFF (`true` output for all five). -/
def allOffOut (o : PolicyOutput) : Prop :=
  outStates o = [true, true, true, true, true]

/-- All relays ON (`false` output for all five). -/
def allOnOut (o : PolicyOutput) : Prop :=
  outStates o = [false, false, false, false, false]

/-- Does the candidate tag match at the head of the text? -/
def tagHere : List Char → List Char → Bool
  | [], _ => true
  | _ :: _, [] => false
  | a :: tagRest, b :: sRest => a == b && tagHere tagRest sRest

/-- Does the tag occur anywhere in the text? -/
def containsTag (tag : List Char) : List Char → Bool
  | [] => tagHere tag []
  | b :: rest => tagHere tag (b :: rest) || containsTag tag rest

/-- The rationale text mentions the given band name. -/
def mentions (tag r : String) : Bool := containsTag tag.data r.data

/-- The hard constraints of the `intelligentSwitchControlPrompt` variant of
`intelligent-switch-control.ts`, in priority order: CRITICAL below 10 (all
`true`), VERY LOW 10–20 (exactly one `false`), LOW 30–50 ("a maximum of
TWO"), HEALTHY 60–70 ("you can turn on all switches", no hard cardinality
bound); other levels are governed only by the advisory rules. -/
def ValidV1 (inp : PolicyInput) (out : PolicyOutput) : Prop :=
  if inp.batteryLevel < 10 then
    allOffOut out ∧ mentions "CRITICAL" out.reasoning = true
  else if 10 ≤ inp.batteryLevel ∧ inp.batteryLevel ≤ 20 then
    countOn out = 1 ∧ mentions "VERY LOW" out.reasoning = true
  else if 30 ≤ inp.batteryLevel ∧ inp.batteryLevel ≤ 50 then
    countOn out ≤ 2 ∧ mentions "LOW" out.reasoning = true
  else if 60 ≤ inp.batteryLevel ∧ inp.batteryLevel ≤ 70 then
    mentions "HEALTHY" out.reasoning = true
  else True

/-- The hard constraints of the part_002 prompt variant: CRITICAL below 10
(all `true`), VERY LOW 10–30 (exactly one `false`), LOW 40–50 ("a maximum
of TWO"), HEALTHY 60–70 ("a maximum of THREE"), OPTIMAL above 70 (all
`false`); the gap bands 31–39 and 51–59 are left to the user-centric
rule. -/
def ValidV2 (inp : PolicyInput) (out : PolicyOutput) : Prop :=
  if inp.batteryLevel < 10 then
    allOffOut out ∧ mentions "CRITICAL" out.reasoning = true
  else if 10 ≤ inp.batteryLevel ∧ inp.batteryLevel ≤ 30 then
    countOn out = 1 ∧ mentions "VERY LOW" out.reasoning = true
  else if 40 ≤ inp.batteryLevel ∧ inp.batteryLevel ≤ 50 then
    countOn out ≤ 2 ∧ mentions "LOW" out.reasoning = true
  else if 60 ≤ inp.batteryLevel ∧ inp.batteryLevel ≤ 70 then
    countOn out ≤ 3 ∧ mentions "HEALTHY" out.reasoning = true
  else if 70 < inp.batteryLevel then
    allOnOut out ∧ mentions "OPTIMAL" out.reasoning = true
  else True

/-! ## Device control surface (ESP32 firmware, part_000)

Two firmware variants handle a received stored switch state.  The first
(lines 85–93) runs `digitalWrite(pin, switchState ? HIGH : LOW)`; the
second (lines 349–363) runs `digitalWrite(pin, switchState ? LOW : HIGH)`.
The stored convention, documented in part_001 lines 187–188, is “the
database stores the relay state for NC relays: false is ON, true is OFF”,
i.e. the logical state is the negation of the stored value. -/

inductive PinLevel where
  | high
  | low
  deriving DecidableEq, Repr

/-- Pin map of the first firmware variant. -/
def getPinForSwitchV1 (switchId : ℤ) : ℤ :=
  if switchId = 1 then 23
  else if switchId = 2 then 22
  else if switchId = 3 then 21
  else if switchId = 4 then 19
  else if switchId = 5 then 18
  else -1

/-- Pin map of the second firmware variant. -/
def getPinForSwitchV2 (switchId : ℤ) : ℤ :=
  if switchId = 1 then 13
  else if switchId = 2 then 14
  else if switchId = 3 then 27
  else if switchId = 4 then 26
  else if switchId = 5 then 25
  else -1

/-- First variant's pin write for a received stored state:
`digitalWrite(pin, switchState ? HIGH : LOW)`. -/
def pinWriteV1 (switchState : Bool) : PinLevel :=
  if switchState then PinLevel.high else PinLevel.low

/-- Second variant's pin write for a received stored state:
`digitalWrite(pin, switchState ? LOW : HIGH)`. -/
def pinWriteV2 (switchState : Bool) : PinLevel :=
  if switchState then PinLevel.low else PinLevel.high

end SmartEnergy

namespace SmartEnergy

/-! ## Claim theorems for the codec and the guard -/

/-- Claim C2: the wire/logical codec is the boolean negation in both
directions and is involutive: `toLogical x = !x`, `toWire x = !x`,
`toWire (toLogical x) = x` and `toLogical (toWire x) = x`. -/
theorem wire_codec_involutive :
    (∀ x : Bool, toLogical x = !x) ∧ (∀ x : Bool, toWire x = !x) ∧
    (∀ x : Bool, toWire (toLogical x) = x) ∧
    (∀ x : Bool, toLogical (toWire x) = x) := by
  refine ⟨fun x => rfl, fun x => rfl, fun x => ?_, fun x => ?_⟩ <;>
    cases x <;> rfl

/-- Claim C1: the guard fires exactly at observations with a previous level
`p ≥ 40` and a new level `b < 40` — never on the first observation (no
previous level) and never while the level remains below 40 — and on the
sequence `[50,35,20,15,45,30,10]` it fires exactly twice, on the 50→35 and
45→30 transitions. -/
theorem guard_fires_exactly_on_downward_crossings :
    (∀ (b : ℤ) (rest : List ℤ),
      guardRun none (b :: rest) =
        false :: List.zipWith
          (fun p c => decide (40 ≤ p) && decide (c < 40)) (b :: rest) rest) ∧
    (∀ p b : ℤ, p < 40 → guardFire (some p) b = false) ∧
    guardRun none [50, 35, 20, 15, 45, 30, 10] =
      [false, true, false, false, false, true, false] ∧
    (guardRun none [50, 35, 20, 15, 45, 30, 10]).count true = 2 := by
  have key : ∀ (rest : List ℤ) (b : ℤ),
      guardRun (some b) rest =
        List.zipWith
          (fun p c => decide (40 ≤ p) && decide (c < 40)) (b :: rest) rest := by
    intro rest
    induction rest with
    | nil => intro b; rfl
    | cons c rs ih =>
        intro b
        simp only [guardRun, guardFire, List.zipWith, ih c]
  refine ⟨fun b rest => ?_, fun p b hp => ?_, ?_, ?_⟩
  · simp only [guardRun, guardFire, key rest b]
  · simp only [guardFire, Bool.and_eq_false_iff, decide_eq_false_iff_not,
      not_le]
    exact Or.inl hp
  · rfl
  · rfl

/-- Witness for the hypothesis-bearing conjunct of
`guard_fires_exactly_on_downward_crossings`, applied at `p = 30`, `b = 30`. -/
theorem guard_fires_exactly_on_downward_crossings_witness :
    (30 : ℤ) < 40 ∧ guardFire (some 30) 30 = false :=
  ⟨by decide,
    guard_fires_exactly_on_downward_crossings.2.1 30 30 (by decide)⟩

/-- Claim C5 counterexample: the merge does not recompute power from the
*merged* result.  After a prior snapshot `{voltage:12, current:2,
batteryLevel:60, power:24}`, applying the raw record `{voltage:10,
batteryLevel:50}` yields a merged record whose voltage (10) and current
(2, carried forward) are both present, yet whose power is the carried 24,
not the product 20 the claim's rule demands. -/
theorem power_not_recomputed_from_merged_result :
    (mergeSnapshot ⟨12, 2, 60, 24, 25, 50⟩
        ⟨some 10, none, some 50, none, none⟩).power = 24 ∧
    (mergeSnapshot ⟨12, 2, 60, 24, 25, 50⟩
          ⟨some 10, none, some 50, none, none⟩).voltage *
      (mergeSnapshot ⟨12, 2, 60, 24, 25, 50⟩
          ⟨some 10, none, some 50, none, none⟩).current = 20 ∧
    (24 : ℚ) ≠ 20 := by
  refine ⟨rfl, by norm_num [mergeSnapshot], by norm_num⟩

/-- Claim C5 as amended: each missing field of a raw record carries the
prior snapshot's value forward and a present field replaces it; power is
recomputed as voltage×current exactly when both voltage and current are
present (and nonzero) in the *raw* record, and is carried forward from the
previous snapshot otherwise; the claim's concrete example
`{batteryLevel:55}` after `{voltage:12, current:2, batteryLevel:60,
power:24}` still yields `{voltage:12, current:2, batteryLevel:55,
power:24}` — with 24 carried forward. -/
theorem telemetry_merge_carry_forward :
    (∀ (prev : EnergyData) (raw : RawEnergy),
      (mergeSnapshot prev raw).voltage = raw.voltage.getD prev.voltage ∧
      (mergeSnapshot prev raw).current = raw.current.getD prev.current ∧
      (mergeSnapshot prev raw).batteryLevel
        = raw.batteryLevel.getD prev.batteryLevel ∧
      (mergeSnapshot prev raw).temperature
        = raw.temperature.getD prev.temperature ∧
      (mergeSnapshot prev raw).humidity = raw.humidity.getD prev.humidity) ∧
    (∀ (prev : EnergyData) (v c : ℚ) (raw : RawEnergy),
      raw.voltage = some v → raw.current = some c → v ≠ 0 → c ≠ 0 →
      (mergeSnapshot prev raw).power = v * c) ∧
    (∀ (prev : EnergyData) (raw : RawEnergy),
      (truthy raw.voltage && truthy raw.current) = false →
      (mergeSnapshot prev raw).power = prev.power) ∧
    mergeSnapshot ⟨12, 2, 60, 24, 25, 50⟩ ⟨none, none, some 55, none, none⟩
      = ⟨12, 2, 55, 24, 25, 50⟩ := by
  refine ⟨fun prev raw => ⟨rfl, rfl, rfl, rfl, rfl⟩,
    fun prev v c raw hv hc hv0 hc0 => ?_, fun prev raw h => ?_, rfl⟩
  · simp [mergeSnapshot, truthy, hv, hc, hv0, hc0]
  · simp only [mergeSnapshot, h, Bool.false_eq_true, if_false]

/-- Claim C4: for every policy input with battery level below 10 and every
output admitted by either prompt variant's rule hierarchy, all five relays
are OFF (`true` for all, i.e. `logicalOn = false` everywhere) and the
rationale mentions the CRITICAL band; the rule is the first in the
hierarchy, so nothing else applies. -/
theorem critical_band_all_off :
    ∀ (inp : PolicyInput) (out : PolicyOutput), inp.batteryLevel < 10 →
      (ValidV1 inp out →
        allOffOut out ∧ mentions "CRITICAL" out.reasoning = true) ∧
      (ValidV2 inp out →
        allOffOut out ∧ mentions "CRITICAL" out.reasoning = true) := by
  intro inp out h
  constructor <;> intro hv
  · unfold ValidV1 at hv
    rwa [if_pos h] at hv
  · unfold ValidV2 at hv
    rwa [if_pos h] at hv

/-- Witness for `critical_band_all_off` at battery level 5 with a concrete
decision admitted by the first prompt variant. -/
theorem critical_band_all_off_witness :
    (⟨12, 2, 5, 24, 100, "", ""⟩ : PolicyInput).batteryLevel < 10 ∧
    ValidV1 ⟨12, 2, 5, 24, 100, "", ""⟩
      ⟨true, true, true, true, true,
        "CRITICAL (Below 10%): all switches off"⟩ ∧
    allOffOut
      ⟨true, true, true, true, true,
        "CRITICAL (Below 10%): all switches off"⟩ := by
  have hb : (⟨12, 2, 5, 24, 100, "", ""⟩ : PolicyInput).batteryLevel < 10 := by
    norm_num
  have hv : ValidV1 ⟨12, 2, 5, 24, 100, "", ""⟩
      ⟨true, true, true, true, true,
        "CRITICAL (Below 10%): all switches off"⟩ := by
    unfold ValidV1
    norm_num
    exact ⟨rfl, rfl⟩
  exact ⟨hb, hv,
    ((critical_band_all_off ⟨12, 2, 5, 24, 100, "", ""⟩
      ⟨true, true, true, true, true,
        "CRITICAL (Below 10%): all switches off"⟩ hb).1 hv).1⟩

/-- Claim C3 counterexample: at battery level 65 the named flow's HEALTHY
rule ("you can turn on all switches") admits the all-ON decision, which
has 5 relays with `logicalOn = true`, not 3. -/
theorem healthy_band_allows_all_on_at_65 :
    ValidV1 ⟨12, 2, 65, 24, 100, "prefs", "patterns"⟩
      ⟨false, false, false, false, false,
        "HEALTHY (60% - 70%): all switches on"⟩ ∧
    countOn
      ⟨false, false, false, false, false,
        "HEALTHY (60% - 70%): all switches on"⟩ = 5 ∧
    (5 : ℕ) ≠ 3 := by
  refine ⟨?_, by decide, by decide⟩
  unfold ValidV1
  norm_num
  rfl

/-- Claim C3 as amended: at battery level 65 the ON-count is not fixed at
3: the part_002 prompt variant only bounds it ("a maximum of THREE", so
any admitted decision has at most 3 relays ON), while the
`intelligent-switch-control.ts` variant admits decisions with all 5 relays
ON. -/
theorem healthy_band_cap_at_65 :
    ∀ (inp : PolicyInput), inp.batteryLevel = 65 →
      (∀ out : PolicyOutput, ValidV2 inp out → countOn out ≤ 3) ∧
      (∃ o : PolicyOutput, ValidV1 inp o ∧ countOn o = 5) := by
  intro inp hb
  constructor
  · intro out hv
    unfold ValidV2 at hv
    rw [hb] at hv
    norm_num at hv
    exact hv.1
  · refine ⟨⟨false, false, false, false, false,
      "HEALTHY (60% - 70%): all switches on"⟩, ?_, by decide⟩
    unfold ValidV1
    rw [hb]
    norm_num
    rfl

/-- Witness for `healthy_band_cap_at_65` at a concrete input with battery
65 and a concrete decision turning on relays 1–3. -/
theorem healthy_band_cap_at_65_witness :
    (⟨12, 2, 65, 24, 100, "p", "q"⟩ : PolicyInput).batteryLevel = 65 ∧
    ValidV2 ⟨12, 2, 65, 24, 100, "p", "q"⟩
      ⟨false, false, false, true, true, "HEALTHY (60% - 70%): top three"⟩ ∧
    countOn
      ⟨false, false, false, true, true, "HEALTHY (60% - 70%): top three"⟩
      ≤ 3 := by
  have hv : ValidV2 ⟨12, 2, 65, 24, 100, "p", "q"⟩
      ⟨false, false, false, true, true, "HEALTHY (60% - 70%): top three"⟩ := by
    unfold ValidV2
    norm_num
    exact ⟨by decide, rfl⟩
  exact ⟨rfl, hv,
    (healthy_band_cap_at_65 ⟨12, 2, 65, 24, 100, "p", "q"⟩ rfl).1
      ⟨false, false, false, true, true, "HEALTHY (60% - 70%): top three"⟩ hv⟩

/-- Claim C9: the two firmware variants drive opposite pin levels for the
same received stored state.  Under the documented stored convention
(stored `false` = logical ON), the first variant drives the claimed
polarity — logical true ↦ LOW, logical false ↦ HIGH — while the second
variant drives LOW for stored `true` (logical OFF), the inverse of the
claimed level, so no single consistent polarity mapping covers the device
control surface. -/
theorem firmware_polarity_divergence :
    (∀ stored : Bool,
      pinWriteV1 stored
        = if toLogical stored then PinLevel.low else PinLevel.high) ∧
    pinWriteV2 true = PinLevel.low ∧
    (if toLogical true then PinLevel.low else PinLevel.high)
      = PinLevel.high ∧
    (∀ stored : Bool, pinWriteV2 stored ≠ pinWriteV1 stored) := by
  refine ⟨fun stored => ?_, rfl, rfl, fun stored => ?_⟩ <;>
    cases stored <;> decide

/-- Claim C6 counterexample: a decision covering 5 relays whose remote
write for relay 3 fails leaves relay 3 in its new optimistic state (ON),
not reverted to its pre-decision state (OFF): the decision path ignores
write outcomes entirely. -/
theorem decision_path_no_rollback :
    ((updateAllSwitchesModel
        [⟨1, some "Switch 1", false⟩, ⟨2, some "Switch 2", false⟩,
          ⟨3, some "Switch 3", false⟩, ⟨4, some "Switch 4", false⟩,
          ⟨5, some "Switch 5", false⟩]
        [false, false, false, false, false]
        [true, true, false, true, true]).map SwitchSt.state)
      = [true, true, true, true, true] ∧
    ([⟨1, some "Switch 1", false⟩, ⟨2, some "Switch 2", false⟩,
        ⟨3, some "Switch 3", false⟩, ⟨4, some "Switch 4", false⟩,
        ⟨5, some "Switch 5", false⟩].map SwitchSt.state)
      = [false, false, false, false, false] ∧
    (true : Bool) ≠ false := by
  exact ⟨by decide, by decide, by decide⟩

/-- Claim C6 as amended: the decision write path is fire-and-forget — the
local result is the optimistic application of the decision for every
combination of per-relay write outcomes, so no relay is ever rolled back
there; only the manual single-toggle path reverts, setting the toggled
relay back to the negation of the requested value when its awaited write
fails. -/
theorem decision_path_fire_and_forget :
    (∀ (switches : List SwitchSt) (db out₁ out₂ : List Bool),
      updateAllSwitchesModel switches db out₁
        = updateAllSwitchesModel switches db out₂) ∧
    (∀ (switches : List SwitchSt) (db out : List Bool),
      updateAllSwitchesModel switches db out = applyDbStates switches db) ∧
    (∀ (switches : List SwitchSt) (id : ℤ) (c : Bool) (e : SwitchSt),
      switches.find? (fun s => decide (s.id = id)) = some e →
      handleSwitchChangeModel switches id c false
        = switches.map
            (fun s => if s.id = id then { s with state := !c } else s)) := by
  refine ⟨fun _ _ _ _ => rfl, fun _ _ _ => rfl, fun switches id c e he => ?_⟩
  unfold handleSwitchChangeModel
  rw [he]
  simp only [Bool.false_eq_true, if_false]
  rw [List.map_map]
  refine List.map_congr_left fun s _ => ?_
  by_cases h : s.id = id
  · simp [Function.comp, h]
  · simp [Function.comp, h]

/-- Witness for `decision_path_fire_and_forget`: the single-toggle revert
conjunct applied to a one-relay list. -/
theorem decision_path_fire_and_forget_witness :
    ([⟨1, some "Switch 1", false⟩] : List SwitchSt).find?
        (fun s => decide (s.id = 1)) = some ⟨1, some "Switch 1", false⟩ ∧
    handleSwitchChangeModel [⟨1, some "Switch 1", false⟩] 1 true false
      = [⟨1, some "Switch 1", false⟩] :=
  ⟨rfl,
    (decision_path_fire_and_forget.2.2 [⟨1, some "Switch 1", false⟩] 1 true
        ⟨1, some "Switch 1", false⟩ rfl).trans (by decide)⟩

/-- Claim C8: when no forecast is held and the attempted fetch also fails,
the policy is not invoked and the held relay state is returned unchanged
(no relay writes on that path); when the fetch succeeds, its result is the
forecast the policy runs with — the fetch is attempted before any policy
invocation. -/
theorem forecast_precondition_guards_policy :
    (∀ (ai : Option (List Bool × String)) (switches : List SwitchSt),
      handleOptimizationModel none none ai switches = (false, switches)) ∧
    (∀ (f : Forecast) (db : List Bool) (r : String)
        (switches : List SwitchSt),
      handleOptimizationModel none (some f) (some (db, r)) switches
        = (true, applyDbStates switches db)) :=
  ⟨fun _ _ => rfl, fun _ _ _ _ => rfl⟩

/-- Witness for `telemetry_merge_carry_forward`, applying the raw-record
power-recompute conjunct at voltage 3, current 4. -/
theorem telemetry_merge_carry_forward_witness :
    (⟨some 3, some 4, none, none, none⟩ : RawEnergy).voltage = some 3 ∧
    (⟨some 3, some 4, none, none, none⟩ : RawEnergy).current = some 4 ∧
    (3 : ℚ) ≠ 0 ∧ (4 : ℚ) ≠ 0 ∧
    (mergeSnapshot ⟨12, 2, 60, 24, 25, 50⟩
        ⟨some 3, some 4, none, none, none⟩).power = 3 * 4 :=
  ⟨rfl, rfl, by norm_num, by norm_num,
    telemetry_merge_carry_forward.2.1 ⟨12, 2, 60, 24, 25, 50⟩ 3 4
      ⟨some 3, some 4, none, none, none⟩ rfl rfl (by norm_num) (by norm_num)⟩

end SmartEnergy

namespace SmartEnergy

/-! ## Supporting lemmas for the relay-state ingest (claims C7 and C10) -/

/-- The ids held in a switch list, in order. -/
def idsOf (l : List SwitchSt) : List ℤ := l.map SwitchSt.id

lemma lookup_eq_none_iff {k : ℤ} {l : List SwitchSt} :
    lookup k l = none ↔ k ∉ idsOf l := by
  simp only [lookup, List.find?_eq_none, idsOf, List.mem_map, decide_eq_true_eq]
  constructor
  · rintro h ⟨x, hx, hid⟩
    exact h x hx hid
  · intro h x hx hid
    exact h ⟨x, hx, hid⟩

lemma updateFirst_nochange {k : ℤ} {r : RawSwitch} {l : List SwitchSt}
    {e : SwitchSt} (hl : lookup k l = some e) (hs : e.state = !r.state) :
    updateFirst k r l = (l, false) := by
  induction l with
  | nil => simp [lookup] at hl
  | cons sw rest ih =>
      by_cases h : sw.id = k
      · rw [lookup, List.find?_cons_of_pos _ (by simpa using h)] at hl
        obtain rfl : sw = e := by simpa using hl
        simp [updateFirst, h, hs]
      · rw [lookup, List.find?_cons_of_neg _ (by simpa using h)] at hl
        have := ih hl
        simp [updateFirst, h, this]

lemma updateFirst_lookup {k : ℤ} (r : RawSwitch) (l : List SwitchSt) :
    (∃ e, lookup k (updateFirst k r l).1 = some e ∧ e.state = !r.state) ∧
    (lookup k l = none →
      lookup k (updateFirst k r l).1
        = some ⟨k, some (pushName k r.name), !r.state⟩) := by
  induction l with
  | nil =>
      refine ⟨⟨⟨k, some (pushName k r.name), !r.state⟩, ?_, rfl⟩, fun _ => ?_⟩ <;>
        simp [updateFirst, lookup]
  | cons sw rest ih =>
      by_cases h : sw.id = k
      · by_cases h2 : sw.state = !r.state
        · refine ⟨⟨sw, ?_, h2⟩, fun hn => ?_⟩
          · simp [updateFirst, h, h2, lookup, List.find?_cons_of_pos, h]
          · rw [lookup, List.find?_cons_of_pos _ (by simpa using h)] at hn
            exact absurd hn (by simp)
        · refine ⟨⟨⟨sw.id, r.name, !r.state⟩, ?_, rfl⟩, fun hn => ?_⟩
          · simp [updateFirst, h, h2, lookup, List.find?_cons_of_pos]
          · rw [lookup, List.find?_cons_of_pos _ (by simpa using h)] at hn
            exact absurd hn (by simp)
      · have hfind : lookup k (sw :: rest) = lookup k rest := by
          rw [lookup, List.find?_cons_of_neg _ (by simpa using h)]; rfl
        refine ⟨?_, fun hn => ?_⟩
        · obtain ⟨e, he, hs⟩ := ih.1
          refine ⟨e, ?_, hs⟩
          simp only [updateFirst, h, if_false]
          rw [lookup, List.find?_cons_of_neg _ (by simpa using h)]
          exact he
        · rw [hfind] at hn
          have := ih.2 hn
          simp only [updateFirst, h, if_false]
          rw [lookup, List.find?_cons_of_neg _ (by simpa using h)]
          exact this

end SmartEnergy

namespace SmartEnergy

lemma updateFirst_lookup_ne {q k : ℤ} (hne : q ≠ k) (r : RawSwitch)
    (l : List SwitchSt) :
    lookup q (updateFirst k r l).1 = lookup q l := by
  induction l with
  | nil =>
      simp [updateFirst, lookup, hne, Ne.symm hne]
  | cons sw rest ih =>
      by_cases h : sw.id = k
      · have hq : ¬sw.id = q := by rw [h]; exact Ne.symm hne
        by_cases h2 : sw.state = !r.state
        · simp [updateFirst, h, h2]
        · simp only [updateFirst, h, if_pos, ne_eq, h2, not_false_iff, if_true]
          rw [lookup, List.find?_cons_of_neg _ (by simpa using Ne.symm hne),
            lookup, List.find?_cons_of_neg _ (by simpa using hq)]
      · by_cases hq : sw.id = q
        · simp only [updateFirst, h, if_false]
          rw [lookup, List.find?_cons_of_pos _ (by simpa using hq),
            lookup, List.find?_cons_of_pos _ (by simpa using hq)]
        · simp only [updateFirst, h, if_false]
          rw [lookup, List.find?_cons_of_neg _ (by simpa using hq),
            lookup, List.find?_cons_of_neg _ (by simpa using hq)]
          exact ih

lemma updateFirst_ids {k : ℤ} (r : RawSwitch) (l : List SwitchSt) :
    (¬lookup k l = none → idsOf (updateFirst k r l).1 = idsOf l) ∧
    (lookup k l = none → idsOf (updateFirst k r l).1 = idsOf l ++ [k]) := by
  induction l with
  | nil => exact ⟨fun h => absurd rfl h, fun _ => by simp [updateFirst, idsOf]⟩
  | cons sw rest ih =>
      by_cases h : sw.id = k
      · have hsome : lookup k (sw :: rest) = some sw := by
          rw [lookup, List.find?_cons_of_pos _ (by simpa using h)]
        by_cases h2 : sw.state = !r.state
        · simp [updateFirst, h, h2, hsome]
        · refine ⟨fun _ => ?_, fun hn => by rw [hsome] at hn; exact absurd hn (by simp)⟩
          simp [updateFirst, h, h2, idsOf]
      · have hfind : lookup k (sw :: rest) = lookup k rest := by
          rw [lookup, List.find?_cons_of_neg _ (by simpa using h)]; rfl
        refine ⟨fun hn => ?_, fun hn => ?_⟩ <;> rw [hfind] at hn
        · simp only [updateFirst, h, if_false, idsOf, List.map_cons]
          rw [show (updateFirst k r rest).1.map SwitchSt.id = idsOf rest from ih.1 hn]
          rfl
        · simp only [updateFirst, h, if_false, idsOf, List.map_cons]
          rw [show (updateFirst k r rest).1.map SwitchSt.id = idsOf rest ++ [k] from ih.2 hn]
          rfl

lemma updateFirst_nodup {k : ℤ} (r : RawSwitch) {l : List SwitchSt}
    (hl : (idsOf l).Nodup) : (idsOf (updateFirst k r l).1).Nodup := by
  by_cases hn : lookup k l = none
  · rw [(updateFirst_ids r l).2 hn]
    rw [List.nodup_append]
    refine ⟨hl, List.nodup_singleton k, fun a ha hb => ?_⟩
    rw [List.mem_singleton] at hb
    subst hb
    exact lookup_eq_none_iff.mp hn ha
  · rw [(updateFirst_ids r l).1 hn]
    exact hl

lemma updateFirst_flag_of_none {k : ℤ} (r : RawSwitch) {l : List SwitchSt}
    (hn : lookup k l = none) : (updateFirst k r l).2 = true := by
  induction l with
  | nil => rfl
  | cons sw rest ih =>
      by_cases h : sw.id = k
      · rw [lookup, List.find?_cons_of_pos _ (by simpa using h)] at hn
        exact absurd hn (by simp)
      · rw [lookup, List.find?_cons_of_neg _ (by simpa using h)] at hn
        simp only [updateFirst, h, if_false]
        exact ih hn

end SmartEnergy

namespace SmartEnergy

lemma ingestLoop_nochange {raw : List (ℤ × RawSwitch)} :
    ∀ {l : List SwitchSt} {ch : Bool},
      (∀ kr ∈ raw, ∃ e, lookup kr.1 l = some e ∧ e.state = !kr.2.state) →
      ingestLoop l ch raw = (l, ch) := by
  induction raw with
  | nil => intro l ch _; rfl
  | cons kr rest ih =>
      intro l ch hall
      obtain ⟨e, he, hs⟩ := hall kr (List.mem_cons_self kr rest)
      have hu : updateFirst kr.1 kr.2 l = (l, false) := updateFirst_nochange he hs
      show ingestLoop (updateFirst kr.1 kr.2 l).1
        (ch || (updateFirst kr.1 kr.2 l).2) rest = (l, ch)
      rw [hu]
      simp only [Bool.or_false]
      exact ih fun q hq => hall q (List.mem_cons_of_mem kr hq)

lemma ingestLoop_lookup_ne {k : ℤ} {raw : List (ℤ × RawSwitch)} :
    ∀ {l : List SwitchSt} {ch : Bool},
      (∀ kr ∈ raw, kr.1 ≠ k) →
      lookup k (ingestLoop l ch raw).1 = lookup k l := by
  induction raw with
  | nil => intro l ch _; rfl
  | cons kr rest ih =>
      intro l ch hall
      show lookup k (ingestLoop (updateFirst kr.1 kr.2 l).1
        (ch || (updateFirst kr.1 kr.2 l).2) rest).1 = lookup k l
      rw [ih fun q hq => hall q (List.mem_cons_of_mem kr hq)]
      exact updateFirst_lookup_ne
        (Ne.symm (hall kr (List.mem_cons_self kr rest))) kr.2 l

lemma ingestLoop_nodup {raw : List (ℤ × RawSwitch)} :
    ∀ {l : List SwitchSt} {ch : Bool}, (idsOf l).Nodup →
      (idsOf (ingestLoop l ch raw).1).Nodup := by
  induction raw with
  | nil => intro l ch hl; exact hl
  | cons kr rest ih =>
      intro l ch hl
      exact ih (updateFirst_nodup kr.2 hl)

lemma ingestLoop_lookup_states {raw : List (ℤ × RawSwitch)}
    (hraw : (raw.map Prod.fst).Nodup) :
    ∀ {l : List SwitchSt} {ch : Bool}, ∀ kr ∈ raw,
      ∃ e, lookup kr.1 (ingestLoop l ch raw).1 = some e ∧
        e.state = !kr.2.state := by
  induction raw with
  | nil => intro l ch kr h; exact absurd h (List.not_mem_nil kr)
  | cons hd rest ih =>
      rw [List.map_cons, List.nodup_cons] at hraw
      intro l ch kr hmem
      rcases List.mem_cons.mp hmem with hEq | hrest
      · subst hEq
        obtain ⟨e, he, hs⟩ := (updateFirst_lookup kr.2 l).1
        refine ⟨e, ?_, hs⟩
        show lookup kr.1 (ingestLoop (updateFirst kr.1 kr.2 l).1
          (ch || (updateFirst kr.1 kr.2 l).2) rest).1 = some e
        rw [ingestLoop_lookup_ne fun q hq hqk => hraw.1 ?_]
        · exact he
        · rw [← hqk]
          exact List.mem_map.mpr ⟨q, hq, rfl⟩
      · exact ih hraw.2 kr hrest

lemma ingestLoop_flag_true {raw : List (ℤ × RawSwitch)} :
    ∀ {l : List SwitchSt}, (ingestLoop l true raw).2 = true := by
  induction raw with
  | nil => intro l; rfl
  | cons kr rest ih =>
      intro l
      show (ingestLoop (updateFirst kr.1 kr.2 l).1
        (true || (updateFirst kr.1 kr.2 l).2) rest).2 = true
      rw [Bool.true_or]
      exact ih

lemma ingestLoop_flag_of_push {raw : List (ℤ × RawSwitch)}
    (hraw : (raw.map Prod.fst).Nodup) :
    ∀ {l : List SwitchSt} {ch : Bool} {k : ℤ} {r : RawSwitch},
      (k, r) ∈ raw → lookup k l = none →
      (ingestLoop l ch raw).2 = true := by
  induction raw with
  | nil => intro l ch k r h; exact absurd h (List.not_mem_nil _)
  | cons hd rest ih =>
      rw [List.map_cons, List.nodup_cons] at hraw
      intro l ch k r hmem hnone
      rcases List.mem_cons.mp hmem with hEq | hrest
      · have hk : hd.1 = k := by rw [← hEq]
        show (ingestLoop (updateFirst hd.1 hd.2 l).1
          (ch || (updateFirst hd.1 hd.2 l).2) rest).2 = true
        rw [hk, updateFirst_flag_of_none _ hnone, Bool.or_true]
        exact ingestLoop_flag_true
      · have hne : hd.1 ≠ k := fun hh => hraw.1 (by
          rw [hh]
          exact List.mem_map.mpr ⟨(k, r), hrest, rfl⟩)
        show (ingestLoop (updateFirst hd.1 hd.2 l).1
          (ch || (updateFirst hd.1 hd.2 l).2) rest).2 = true
        refine ih hraw.2 hrest ?_
        rw [updateFirst_lookup_ne (Ne.symm hne) hd.2 l]
        exact hnone

lemma ingestLoop_pushed_name {raw : List (ℤ × RawSwitch)}
    (hraw : (raw.map Prod.fst).Nodup) :
    ∀ {l : List SwitchSt} {ch : Bool} {k : ℤ} {r : RawSwitch},
      (k, r) ∈ raw → lookup k l = none →
      lookup k (ingestLoop l ch raw).1
        = some ⟨k, some (pushName k r.name), !r.state⟩ := by
  induction raw with
  | nil => intro l ch k r h; exact absurd h (List.not_mem_nil _)
  | cons hd rest ih =>
      rw [List.map_cons, List.nodup_cons] at hraw
      intro l ch k r hmem hnone
      rcases List.mem_cons.mp hmem with hEq | hrest
      · have hh : hd = (k, r) := hEq.symm
        subst hh
        show lookup k (ingestLoop (updateFirst k r l).1
          (ch || (updateFirst k r l).2) rest).1 = _
        rw [ingestLoop_lookup_ne fun q hq hqk => hraw.1 (by
          rw [← hqk]
          exact List.mem_map.mpr ⟨q, hq, rfl⟩)]
        exact (updateFirst_lookup r l).2 hnone
      · have hne : hd.1 ≠ k := fun hh => hraw.1 (by
          rw [hh]
          exact List.mem_map.mpr ⟨(k, r), hrest, rfl⟩)
        show lookup k (ingestLoop (updateFirst hd.1 hd.2 l).1
          (ch || (updateFirst hd.1 hd.2 l).2) rest).1 = _
        refine ih hraw.2 hrest ?_
        rw [updateFirst_lookup_ne (Ne.symm hne) hd.2 l]
        exact hnone

end SmartEnergy

namespace SmartEnergy

lemma sortById_perm (l : List SwitchSt) : List.Perm (sortById l) l :=
  List.perm_insertionSort _ l

lemma sortById_nodup {l : List SwitchSt} (hl : (idsOf l).Nodup) :
    (idsOf (sortById l)).Nodup :=
  (((sortById_perm l).map SwitchSt.id).nodup_iff).mpr hl

lemma lookup_perm {l l' : List SwitchSt} (hp : List.Perm l l')
    (hn : (idsOf l).Nodup) (k : ℤ) : lookup k l' = lookup k l := by
  cases h : lookup k l with
  | none =>
      rw [lookup, List.find?_eq_none]
      intro x hx
      rw [lookup, List.find?_eq_none] at h
      exact h x (hp.symm.subset hx)
  | some e =>
      have he : e ∈ l := List.mem_of_find?_eq_some h
      have hek : e.id = k := by simpa using List.find?_some h
      cases h' : lookup k l' with
      | none =>
          rw [lookup, List.find?_eq_none] at h'
          exact absurd (by simpa using hek) (h' e (hp.subset he))
      | some e' =>
          have he' : e' ∈ l := hp.symm.subset (List.mem_of_find?_eq_some h')
          have he'k : e'.id = k := by simpa using List.find?_some h'
          have : e' = e :=
            List.inj_on_of_nodup_map hn he' he (by rw [hek, he'k])
          rw [this]

lemma sortById_sorted_strict {l : List SwitchSt} (hl : (idsOf l).Nodup) :
    List.Sorted (fun a b => a.id < b.id) (sortById l) := by
  have hs : List.Sorted (fun a b : SwitchSt => a.id ≤ b.id) (sortById l) :=
    List.sorted_insertionSort _ l
  have hnd : (idsOf (sortById l)).Nodup := sortById_nodup hl
  have hpw : (sortById l).Pairwise (fun a b => a.id ≠ b.id) :=
    List.pairwise_map.mp hnd
  exact (hs.and hpw).imp fun h => lt_of_le_of_ne h.1 h.2

end SmartEnergy

namespace SmartEnergy

/-- Claim C7: relay-state ingest is idempotent — processing the same
remote relay-state map twice in a row returns the same held list with the
change flag `false` the second time — and a raw entry whose decoded
logical state equals the first held entry for its id never changes
anything (no change notification for unchanged ids). -/
theorem ingest_idempotent :
    (∀ (held : List SwitchSt) (raw : List (ℤ × RawSwitch)),
      (idsOf held).Nodup → (raw.map Prod.fst).Nodup →
      processSwitches (processSwitches held raw).1 raw
        = ((processSwitches held raw).1, false)) ∧
    (∀ (l : List SwitchSt) (k : ℤ) (r : RawSwitch) (e : SwitchSt),
      lookup k l = some e → e.state = !r.state →
      updateFirst k r l = (l, false)) := by
  constructor
  · intro held raw hheld hraw
    cases hp : (ingestLoop held false raw).2 with
    | false =>
        have h1 : processSwitches held raw = (held, false) := by
          simp only [processSwitches]
          rw [hp]
          simp
        rw [h1]
        simpa using h1
    | true =>
        have h1 : processSwitches held raw
            = (sortById (ingestLoop held false raw).1, true) := by
          simp only [processSwitches]
          rw [hp]
          simp
        have hndL : (idsOf (ingestLoop held false raw).1).Nodup :=
          ingestLoop_nodup hheld
        have hall : ∀ kr ∈ raw,
            ∃ e, lookup kr.1 (sortById (ingestLoop held false raw).1) = some e ∧
              e.state = !kr.2.state := by
          intro kr hkr
          obtain ⟨e, he, hs⟩ :=
            @ingestLoop_lookup_states raw hraw held false kr hkr
          exact ⟨e, by
            rw [lookup_perm (sortById_perm _).symm hndL kr.1]
            exact he, hs⟩
        have h2 : processSwitches (sortById (ingestLoop held false raw).1) raw
            = (sortById (ingestLoop held false raw).1, false) := by
          simp only [processSwitches]
          rw [ingestLoop_nochange hall]
          simp
        rw [h1]
        simpa using h2
  · intro l k r e he hs
    exact updateFirst_nochange he hs

/-- Claim C10: processing a remote relay-state map preserves the held
list's invariant — ids pairwise distinct and strictly ascending; a newly
observed id is stored with name `s.name || "Switch {id}"` (so the default
`"Switch {id}"` exactly when the raw entry carries no name) and decoded
state, and the list is re-sorted before being stored. -/
theorem ingest_preserves_sorted_nodup :
    ∀ (held : List SwitchSt) (raw : List (ℤ × RawSwitch)),
      (idsOf held).Nodup →
      List.Sorted (fun a b => a.id < b.id) held →
      (raw.map Prod.fst).Nodup →
      (idsOf (processSwitches held raw).1).Nodup ∧
      List.Sorted (fun a b => a.id < b.id) (processSwitches held raw).1 ∧
      (∀ (k : ℤ) (r : RawSwitch), (k, r) ∈ raw → lookup k held = none →
        lookup k (processSwitches held raw).1
          = some ⟨k, some (pushName k r.name), !r.state⟩) ∧
      (∀ k : ℤ, pushName k none = defaultName k ∧
        defaultName k = "Switch " ++ toString k) := by
  intro held raw hheld hsorted hraw
  cases hp : (ingestLoop held false raw).2 with
  | false =>
      have h1 : processSwitches held raw = (held, false) := by
        simp only [processSwitches]
        rw [hp]
        simp
      rw [h1]
      refine ⟨hheld, hsorted, ?_, fun k => ⟨rfl, rfl⟩⟩
      intro k r hmem hnone
      have hflag := @ingestLoop_flag_of_push raw hraw held false k r hmem hnone
      rw [hp] at hflag
      exact absurd hflag (by simp)
  | true =>
      have h1 : processSwitches held raw
          = (sortById (ingestLoop held false raw).1, true) := by
        simp only [processSwitches]
        rw [hp]
        simp
      have hndL : (idsOf (ingestLoop held false raw).1).Nodup :=
        ingestLoop_nodup hheld
      rw [h1]
      refine ⟨sortById_nodup hndL, sortById_sorted_strict hndL, ?_,
        fun k => ⟨rfl, rfl⟩⟩
      intro k r hmem hnone
      rw [lookup_perm (sortById_perm _).symm hndL k]
      exact @ingestLoop_pushed_name raw hraw held false k r hmem hnone

/-- Witness for `ingest_idempotent`: a one-switch held list and a raw map
updating switch 1 and introducing switch 2. -/
theorem ingest_idempotent_witness :
    (idsOf [⟨1, some "Lamp", false⟩]).Nodup ∧
    (([(1, ⟨some "Lamp", true⟩), (2, ⟨none, false⟩)] :
        List (ℤ × RawSwitch)).map Prod.fst).Nodup ∧
    processSwitches
        (processSwitches [⟨1, some "Lamp", false⟩]
          [(1, ⟨some "Lamp", true⟩), (2, ⟨none, false⟩)]).1
        [(1, ⟨some "Lamp", true⟩), (2, ⟨none, false⟩)]
      = ((processSwitches [⟨1, some "Lamp", false⟩]
          [(1, ⟨some "Lamp", true⟩), (2, ⟨none, false⟩)]).1, false) ∧
    lookup 1 [⟨1, some "Lamp", false⟩] = some ⟨1, some "Lamp", false⟩ ∧
    (⟨1, some "Lamp", false⟩ : SwitchSt).state
      = !(⟨some "Lamp", true⟩ : RawSwitch).state ∧
    updateFirst 1 ⟨some "Lamp", true⟩ [⟨1, some "Lamp", false⟩]
      = ([⟨1, some "Lamp", false⟩], false) :=
  ⟨by decide, by decide,
    ingest_idempotent.1 [⟨1, some "Lamp", false⟩]
      [(1, ⟨some "Lamp", true⟩), (2, ⟨none, false⟩)] (by decide) (by decide),
    by decide, by decide,
    ingest_idempotent.2 [⟨1, some "Lamp", false⟩] 1 ⟨some "Lamp", true⟩
      ⟨1, some "Lamp", false⟩ (by decide) (by decide)⟩

/-- Witness for `ingest_preserves_sorted_nodup`: pushing the unnamed
switch 2 between held switches 1 and 3. -/
theorem ingest_preserves_sorted_nodup_witness :
    (idsOf [⟨1, some "A", false⟩, ⟨3, some "C", true⟩]).Nodup ∧
    List.Sorted (fun a b => a.id < b.id)
      [(⟨1, some "A", false⟩ : SwitchSt), ⟨3, some "C", true⟩] ∧
    (([(2, ⟨none, false⟩)] : List (ℤ × RawSwitch)).map Prod.fst).Nodup ∧
    (2, (⟨none, false⟩ : RawSwitch)) ∈
      ([(2, ⟨none, false⟩)] : List (ℤ × RawSwitch)) ∧
    lookup 2 [⟨1, some "A", false⟩, ⟨3, some "C", true⟩] = none ∧
    (idsOf (processSwitches [⟨1, some "A", false⟩, ⟨3, some "C", true⟩]
      [(2, ⟨none, false⟩)]).1).Nodup ∧
    List.Sorted (fun a b => a.id < b.id)
      (processSwitches [⟨1, some "A", false⟩, ⟨3, some "C", true⟩]
        [(2, ⟨none, false⟩)]).1 ∧
    lookup 2 (processSwitches [⟨1, some "A", false⟩, ⟨3, some "C", true⟩]
        [(2, ⟨none, false⟩)]).1
      = some ⟨2, some (pushName 2 none), !false⟩ := by
  have h := ingest_preserves_sorted_nodup
    [⟨1, some "A", false⟩, ⟨3, some "C", true⟩] [(2, ⟨none, false⟩)]
    (by decide) (by decide) (by decide)
  exact ⟨by decide, by decide, by decide, by decide, by decide,
    h.1, h.2.1, h.2.2.1 2 ⟨none, false⟩ (by decide) (by decide)⟩

end SmartEnergy
